import Mathlib

/-!
Verification of the BriefBot server core: a shallow embedding of
src/server/openai-client.ts (brief post-processing, word counting,
truncation, retry logic), src/server/routes.ts (the processJob state
machine) and src/server/document-parser.ts (CSV/Excel header heuristics),
together with theorems settling the specification claims.
-/

namespace BriefBot

/-! ### JavaScript string primitives

The white-space class used by the JavaScript regular-expression class
of white-space characters and by String.prototype.trim. -/

def isJsWs (c : Char) : Bool :=
  c = ' ' || c = '\t' || c = '\n' || c = '\r' || c.val = 0xb || c.val = 0xc ||
  c.val = 0xa0 || c.val = 0x1680 || (0x2000 ≤ c.val && c.val ≤ 0x200a) ||
  c.val = 0x2028 || c.val = 0x2029 || c.val = 0x202f || c.val = 0x205f ||
  c.val = 0x3000 || c.val = 0xfeff

/-- Number of maximal runs of non-white-space characters.  This equals the
length of JavaScript `text.trim().split(/\s+/).filter(w => w.length > 0)`. -/
def countWordsAux : Bool → List Char → Nat
  | _, [] => 0
  | inWord, c :: rest =>
    if isJsWs c then countWordsAux false rest
    else (if inWord then 0 else 1) + countWordsAux true rest

def countWords (l : List Char) : Nat := countWordsAux false l

/-! ### The citation-stripping pass

`removeCitations` in openai-client.ts replaces every match of the global
regular expression matching optional white space, the literal text
`[Source:`, one or more characters other than a closing square bracket,
and a closing square bracket, by the empty string. -/

def sourceTag : List Char := "[Source:".data

def matchChars : List Char → List Char → Option (List Char)
  | [], l => some l
  | _ :: _, [] => none
  | p :: ps, c :: cs => if c = p then matchChars ps cs else none

/-- Attempt to match the citation regular expression at the head of `l`;
on success return the remainder after the match. -/
def tryCite (l : List Char) : Option (List Char) :=
  match matchChars sourceTag (l.dropWhile isJsWs) with
  | none => none
  | some l2 =>
    if (l2.takeWhile (fun c => c != ']')).isEmpty then none
    else
      match l2.dropWhile (fun c => c != ']') with
      | c :: r => if c = ']' then some r else none
      | [] => none

/-- Left-to-right scan skipping every match, as JavaScript global replace
with the empty string does.  `fuel` bounds the length of the list. -/
def stripCitesAux : Nat → List Char → List Char
  | 0, _ => []
  | _ + 1, [] => []
  | fuel + 1, c :: cs =>
    match tryCite (c :: cs) with
    | some r => stripCitesAux fuel r
    | none => c :: stripCitesAux fuel cs

def stripCites (l : List Char) : List Char := stripCitesAux l.length l

def removeCitations (s : String) : String := ⟨stripCites s.data⟩

/-! ### The brief data model (post-validation shape)

`validateBriefStructure` guarantees goal is a string and the five list
fields are arrays; the `sources` field is not checked there, so the raw
parsed brief carries it as an `Option` (`none` models a missing or
non-array value). -/

structure OptionItem where
  option : String
  pros : List String
  cons : List String
deriving Repr, DecidableEq

structure ActionItem where
  owner : String
  task : String
  dueDate : String
deriving Repr, DecidableEq

/-- A sources entry; `sect` embeds the `section` field of the
JavaScript object (`section` is a reserved word in Lean). -/
structure SourceEntry where
  label : String
  filename : Option String
  sect : Option String
deriving Repr, DecidableEq

structure Brief where
  goal : String
  context : List String
  options : List OptionItem
  risksTradeoffs : List String
  decisions : List String
  actionChecklist : List ActionItem
  sources : List SourceEntry
deriving Repr, DecidableEq

structure RawBrief where
  goal : String
  context : List String
  options : List OptionItem
  risksTradeoffs : List String
  decisions : List String
  actionChecklist : List ActionItem
  sources : Option (List SourceEntry)
deriving Repr, DecidableEq

/-! ### calculateWordCount (openai-client.ts lines 215-252) -/

/-- The accumulated text string built by `calculateWordCount` before the
final trim/split/filter: citations are stripped from goal, context,
options (option text, pros, cons), risksTradeoffs and decisions, while
actionChecklist owner/task/dueDate are appended verbatim.  The sources
field is never read. -/
def optionFold (t : String) (opt : OptionItem) : String :=
  let t := t ++ " " ++ removeCitations opt.option
  let t := t ++ " " ++ String.intercalate " " (opt.pros.map removeCitations)
  t ++ " " ++ String.intercalate " " (opt.cons.map removeCitations)

def actionFold (t : String) (a : ActionItem) : String :=
  t ++ " " ++ a.owner ++ " " ++ a.task ++ " " ++ a.dueDate

def briefText (b : Brief) : String :=
  let text := removeCitations b.goal
  let text := text ++ " " ++ String.intercalate " " (b.context.map removeCitations)
  let text := b.options.foldl optionFold text
  let text := text ++ " " ++ String.intercalate " " (b.risksTradeoffs.map removeCitations)
  let text := text ++ " " ++ String.intercalate " " (b.decisions.map removeCitations)
  b.actionChecklist.foldl actionFold text

def calculateWordCount (b : Brief) : Nat := countWords (briefText b).data

/-! ### generateBriefWithAI post-processing (openai-client.ts lines 171-207) -/

def maxWords : Nat := 350

/-- The while loop of lines 195-197: pop the last context bullet while the
recomputed word count exceeds the budget and more than one bullet remains.
`fuel` bounds the number of iterations by the context length. -/
def truncateAux : Nat → Brief → Brief
  | 0, b => b
  | fuel + 1, b =>
    if calculateWordCount b > maxWords && b.context.length > 1 then
      truncateAux fuel { b with context := b.context.dropLast }
    else b

def truncateBrief (b : Brief) : Brief := truncateAux b.context.length b

/-- Lines 177-186: collect the lower-cased filenames already present in
the model's sources, then append a synthetic "Referenced document" entry
for every uploaded filename whose lower-cased form is absent. -/
def coverSources (sources : List SourceEntry) (uploadedFilenames : List String) :
    List SourceEntry :=
  let sourcedFiles := sources.filterMap (fun s => s.filename.map String.toLower)
  sources ++ (uploadedFilenames.filter
      (fun f => !(sourcedFiles.contains f.toLower))).map
    (fun f => { label := "Referenced document", filename := some f, sect := none })

/-- The brief right after the sources-coverage step (lines 171-186),
before the word-budget enforcement. -/
def withCoveredSources (raw : RawBrief) (uploadedFilenames : List String) : Brief :=
  { goal := raw.goal
    context := raw.context
    options := raw.options
    risksTradeoffs := raw.risksTradeoffs
    decisions := raw.decisions
    actionChecklist := raw.actionChecklist
    sources := coverSources (raw.sources.getD []) uploadedFilenames }

/-- Lines 188-207: word count, conditional truncation, recomputed final
word count.  The returned pair is the brief together with the attached
`wordCount` (the `generatedAt` timestamp is outside the model). -/
def finalizeBrief (raw : RawBrief) (uploadedFilenames : List String) : Brief × Nat :=
  let b := withCoveredSources raw uploadedFilenames
  let wordCount := calculateWordCount b
  let b1 := if wordCount > maxWords then truncateBrief b else b
  (b1, calculateWordCount b1)

/-! ### Properties of the truncation loop -/

theorem truncateAux_take (fuel : Nat) (b : Brief) :
    ∃ n, n ≤ b.context.length ∧
      truncateAux fuel b = { b with context := b.context.take n } := by
  induction fuel generalizing b with
  | zero =>
    refine ⟨b.context.length, le_rfl, ?_⟩
    simp [truncateAux]
  | succ fuel ih =>
    by_cases h : (calculateWordCount b > maxWords && b.context.length > 1) = true
    · rw [truncateAux, if_pos h]
      obtain ⟨n, hn, he⟩ := ih { b with context := b.context.dropLast }
      refine ⟨n, ?_, ?_⟩
      · simp only [List.length_dropLast] at hn
        omega
      · rw [he]
        simp only [List.dropLast_eq_take, List.take_take]
        simp only [List.length_dropLast, List.length_take] at hn ⊢
        have : min n (b.context.length - 1) = n := by omega
        rw [this]
    · rw [truncateAux, if_neg h]
      refine ⟨b.context.length, le_rfl, ?_⟩
      simp

theorem truncateAux_ne_nil (fuel : Nat) (b : Brief) (h : b.context ≠ []) :
    (truncateAux fuel b).context ≠ [] := by
  induction fuel generalizing b with
  | zero => simpa [truncateAux] using h
  | succ fuel ih =>
    by_cases hc : (calculateWordCount b > maxWords && b.context.length > 1) = true
    · rw [truncateAux, if_pos hc]
      apply ih
      simp only [Bool.and_eq_true, decide_eq_true_eq] at hc
      have : b.context.length > 1 := hc.2
      simp only [ne_eq, ← List.length_pos, List.length_dropLast]
      omega
    · rw [truncateAux, if_neg hc]
      exact h

theorem truncateAux_of_le (fuel : Nat) (b : Brief)
    (h : calculateWordCount b ≤ maxWords) : truncateAux fuel b = b := by
  cases fuel with
  | zero => rfl
  | succ fuel =>
    rw [truncateAux, if_neg]
    simp only [Bool.and_eq_true, decide_eq_true_eq, gt_iff_lt, not_and]
    intro hlt
    omega

theorem truncateAux_budget (fuel : Nat) (b : Brief) (hf : b.context.length ≤ fuel) :
    calculateWordCount (truncateAux fuel b) ≤ maxWords ∨
      (truncateAux fuel b).context.length ≤ 1 := by
  induction fuel generalizing b with
  | zero =>
    right
    simp only [truncateAux]
    omega
  | succ fuel ih =>
    by_cases hc : (calculateWordCount b > maxWords && b.context.length > 1) = true
    · rw [truncateAux, if_pos hc]
      apply ih
      simp only [Bool.and_eq_true, decide_eq_true_eq] at hc
      simp only [List.length_dropLast]
      omega
    · rw [truncateAux, if_neg hc]
      simp only [Bool.and_eq_true, decide_eq_true_eq, gt_iff_lt, not_and] at hc
      by_cases hw : maxWords < calculateWordCount b
      · right; omega
      · left; omega

theorem truncateAux_min (fuel : Nat) (b : Brief) (hf : b.context.length ≤ fuel)
    (n : Nat) (h1 : (truncateAux fuel b).context.length < n)
    (h2 : n ≤ b.context.length) :
    maxWords < calculateWordCount { b with context := b.context.take n } := by
  induction fuel generalizing b with
  | zero =>
    exfalso
    simp only [truncateAux] at h1
    omega
  | succ fuel ih =>
    by_cases hc : (calculateWordCount b > maxWords && b.context.length > 1) = true
    · rw [truncateAux, if_pos hc] at h1
      simp only [Bool.and_eq_true, decide_eq_true_eq] at hc
      by_cases hn : n ≤ b.context.length - 1
      · have := ih { b with context := b.context.dropLast }
          (by simp only [List.length_dropLast]; omega)
          (by simpa using h1) (by simpa [List.length_dropLast] using hn)
        simpa [List.dropLast_eq_take, List.take_take, Nat.min_eq_left hn] using this
      · have hn2 : n = b.context.length := by omega
        subst hn2
        simpa [List.take_length] using hc.1
    · rw [truncateAux, if_neg hc] at h1
      omega

/-! ### Properties of the sources-coverage step -/

theorem coverSources_covers (s0 : List SourceEntry) (up : List String)
    (f : String) (hf : f ∈ up) :
    ∃ e ∈ coverSources s0 up, ∃ g, e.filename = some g ∧ g.toLower = f.toLower := by
  unfold coverSources
  by_cases h :
      (s0.filterMap (fun s => s.filename.map String.toLower)).contains f.toLower = true
  · rw [List.contains_iff_exists_mem_beq] at h
    obtain ⟨x, hx, hbeq⟩ := h
    obtain ⟨e, he, hef⟩ := List.mem_filterMap.mp hx
    obtain ⟨g, hg, hgl⟩ := Option.map_eq_some'.mp hef
    refine ⟨e, List.mem_append_left _ he, g, hg, ?_⟩
    rw [hgl]
    exact (eq_of_beq hbeq).symm
  · refine ⟨{ label := "Referenced document", filename := some f, sect := none },
      List.mem_append_right _ ?_, f, rfl, rfl⟩
    refine List.mem_map.mpr ⟨f, ?_, rfl⟩
    refine List.mem_filter.mpr ⟨hf, ?_⟩
    rw [Bool.not_eq_true] at h
    simp only [h, Bool.not_false]

/-! ### Claims about the brief post-processing -/

/-- A structurally valid model response whose goal alone is 351 words. -/
def overlongRaw : RawBrief :=
  { goal := String.intercalate " " (List.replicate 351 "w"), context := [],
    options := [], risksTradeoffs := [], decisions := [], actionChecklist := [],
    sources := none }

set_option maxRecDepth 40000 in
/-- Claim C1 counterexample: the brief returned by the generator can carry a
wordCount above the configured maximum of 350 — with an empty context there
is nothing for the truncation pass to remove, and a 351-word goal survives
untouched, so the attached wordCount is 351. -/
theorem C1_counterexample : maxWords < (finalizeBrief overlongRaw []).2 := by decide

/-- Claim C1 (amended): after the truncation pass, either the attached
wordCount is at most the configured maximum of 350, or the context has been
reduced to at most one bullet (the loop never pops the last bullet, so a
brief whose other fields alone exceed the budget keeps a larger wordCount). -/
theorem C1_theorem (raw : RawBrief) (uploaded : List String) :
    (finalizeBrief raw uploaded).2 ≤ maxWords ∨
      ((finalizeBrief raw uploaded).1).context.length ≤ 1 := by
  unfold finalizeBrief
  by_cases h : calculateWordCount (withCoveredSources raw uploaded) > maxWords
  · simp only [if_pos h]
    exact truncateAux_budget _ _ le_rfl
  · simp only [if_neg h]
    left
    omega

/-- Claim C2: the word-budget truncation removes context bullets only from
the end (the surviving context is a take-prefix of the original and no other
field changes), it is the identity when the brief is already within budget,
it never empties a non-empty context, and every longer prefix it passed
through was still over budget (it stops as soon as the recomputed count is
at or under 350). -/
theorem C2_theorem (b : Brief) :
    (∃ n, truncateBrief b = { b with context := b.context.take n }) ∧
    (b.context ≠ [] → (truncateBrief b).context ≠ []) ∧
    (calculateWordCount b ≤ maxWords → truncateBrief b = b) ∧
    (∀ n, (truncateBrief b).context.length < n → n ≤ b.context.length →
      maxWords < calculateWordCount { b with context := b.context.take n }) := by
  refine ⟨?_, ?_, ?_, ?_⟩
  · obtain ⟨n, _, he⟩ := truncateAux_take b.context.length b
    exact ⟨n, he⟩
  · exact truncateAux_ne_nil _ b
  · exact truncateAux_of_le _ b
  · exact truncateAux_min _ b le_rfl

/-- A small brief within the word budget, for the C2 witness. -/
def smallBrief : Brief :=
  { goal := "Pick a vendor", context := ["alpha", "beta"], options := [],
    risksTradeoffs := [], decisions := [], actionChecklist := [], sources := [] }

/-- Witness for C2 at a concrete brief: its two-bullet context stays
non-empty and, being within budget, the truncation is the identity. -/
theorem C2_witness :
    (truncateBrief smallBrief).context ≠ [] ∧ truncateBrief smallBrief = smallBrief := by
  have h := C2_theorem smallBrief
  exact ⟨h.2.1 (by decide), h.2.2.1 (by decide)⟩

/-- Claim C3: after post-processing, every uploaded filename is covered by
some sources entry whose filename matches it case-insensitively. -/
theorem C3_theorem (raw : RawBrief) (uploaded : List String) (f : String)
    (hf : f ∈ uploaded) :
    ∃ e ∈ ((finalizeBrief raw uploaded).1).sources,
      ∃ g, e.filename = some g ∧ g.toLower = f.toLower := by
  have hsrc : ((finalizeBrief raw uploaded).1).sources
      = coverSources (raw.sources.getD []) uploaded := by
    unfold finalizeBrief
    by_cases h : calculateWordCount (withCoveredSources raw uploaded) > maxWords
    · simp only [if_pos h]
      obtain ⟨n, _, he⟩ := truncateAux_take
        (withCoveredSources raw uploaded).context.length (withCoveredSources raw uploaded)
      rw [truncateBrief, he]
      rfl
    · simp only [if_neg h]
      rfl
  rw [hsrc]
  exact coverSources_covers _ uploaded f hf

/-- An empty-but-valid model response, for the C3 witness. -/
def emptyRaw : RawBrief :=
  { goal := "", context := [], options := [], risksTradeoffs := [], decisions := [],
    actionChecklist := [], sources := none }

/-- Witness for C3: a file the model never cited gets a covering entry. -/
theorem C3_witness :
    ∃ e ∈ ((finalizeBrief emptyRaw ["Notes.PDF"]).1).sources,
      ∃ g, e.filename = some g ∧ g.toLower = ("Notes.PDF" : String).toLower :=
  C3_theorem emptyRaw ["Notes.PDF"] "Notes.PDF" (by decide)

/-- Claim C10: the sources-coverage step only appends — the model's own
sources entries stay unchanged, in order, at the front, every appended entry
is a synthetic "Referenced document" entry for an uploaded filename, and
every other brief field is left untouched by this step. -/
theorem C10_theorem (raw : RawBrief) (uploaded : List String) :
    (∃ extra, (withCoveredSources raw uploaded).sources = raw.sources.getD [] ++ extra ∧
      ∀ e ∈ extra, e.label = "Referenced document" ∧ e.sect = none ∧
        ∃ f ∈ uploaded, e.filename = some f) ∧
    (withCoveredSources raw uploaded).goal = raw.goal ∧
    (withCoveredSources raw uploaded).context = raw.context ∧
    (withCoveredSources raw uploaded).options = raw.options ∧
    (withCoveredSources raw uploaded).risksTradeoffs = raw.risksTradeoffs ∧
    (withCoveredSources raw uploaded).decisions = raw.decisions ∧
    (withCoveredSources raw uploaded).actionChecklist = raw.actionChecklist := by
  refine ⟨⟨_, rfl, ?_⟩, rfl, rfl, rfl, rfl, rfl, rfl⟩
  intro e he
  obtain ⟨f, hf, rfl⟩ := List.mem_map.mp he
  exact ⟨rfl, rfl, f, (List.mem_filter.mp hf).1, rfl⟩

/-! ### Basic lemmas about the citation scanner -/

theorem stripCitesAux_nil (fuel : Nat) : stripCitesAux fuel [] = [] := by
  cases fuel <;> rfl

theorem matchChars_length :
    ∀ {p l r : List Char}, matchChars p l = some r → r.length + p.length = l.length := by
  intro p
  induction p with
  | nil =>
    intro l r h
    simp only [matchChars, Option.some.injEq] at h
    subst h
    simp
  | cons q qs ih =>
    intro l r h
    cases l with
    | nil => simp [matchChars] at h
    | cons c cs =>
      simp only [matchChars] at h
      by_cases hc : c = q
      · rw [if_pos hc] at h
        have := ih h
        simp only [List.length_cons]
        omega
      · rw [if_neg hc] at h
        cases h

theorem tryCite_length {l r : List Char} (h : tryCite l = some r) : r.length < l.length := by
  unfold tryCite at h
  cases hm : matchChars sourceTag (l.dropWhile isJsWs) with
  | none => rw [hm] at h; cases h
  | some l2 =>
    rw [hm] at h
    dsimp only at h
    by_cases hb : (l2.takeWhile (fun c => c != ']')).isEmpty
    · rw [if_pos hb] at h; cases h
    · rw [if_neg hb] at h
      cases hr : l2.dropWhile (fun c => c != ']') with
      | nil => rw [hr] at h; cases h
      | cons c t =>
        rw [hr] at h
        dsimp only at h
        by_cases hc : c = ']'
        · rw [if_pos hc] at h
          cases h
          have h1 := matchChars_length hm
          have h2 : (l.dropWhile isJsWs).length ≤ l.length :=
            (List.dropWhile_sublist isJsWs).length_le
          have h3 : (l2.dropWhile (fun c => c != ']')).length ≤ l2.length :=
            (List.dropWhile_sublist _).length_le
          rw [hr] at h3
          have h4 : sourceTag.length = 8 := rfl
          simp only [List.length_cons] at h3
          omega
        · rw [if_neg hc] at h
          cases h

theorem sourceTag_eq : sourceTag = '[' :: "Source:".data := rfl

theorem tryCite_none_of_noLB {l : List Char} (h : ∀ c ∈ l, c ≠ '[') :
    tryCite l = none := by
  unfold tryCite
  cases hd : l.dropWhile isJsWs with
  | nil => rw [sourceTag_eq]; rfl
  | cons d t =>
    have hdl : d ∈ l := (List.dropWhile_sublist isJsWs).mem (hd ▸ List.mem_cons_self d t)
    rw [sourceTag_eq]
    simp only [matchChars, if_neg (h d hdl)]

theorem stripCitesAux_of_noLB :
    ∀ (fuel : Nat) (l : List Char), l.length ≤ fuel → (∀ c ∈ l, c ≠ '[') →
      stripCitesAux fuel l = l := by
  intro fuel
  induction fuel with
  | zero =>
    intro l hl _
    rw [List.length_eq_zero.mp (Nat.le_zero.mp hl)]
    rfl
  | succ fuel ih =>
    intro l hl hno
    cases l with
    | nil => rfl
    | cons c cs =>
      have hstep : stripCitesAux (fuel + 1) (c :: cs)
          = match tryCite (c :: cs) with
            | some r => stripCitesAux fuel r
            | none => c :: stripCitesAux fuel cs := rfl
      rw [hstep, tryCite_none_of_noLB hno]
      have := ih cs (by simpa using hl) (fun d hd => hno d (List.mem_cons_of_mem c hd))
      rw [this]

theorem stripCites_of_noLB {l : List Char} (h : ∀ c ∈ l, c ≠ '[') : stripCites l = l :=
  stripCitesAux_of_noLB l.length l le_rfl h

theorem removeCitations_of_noLB {s : String}
    (h : s.data.all (fun c => c != '[') = true) : removeCitations s = s := by
  have hl : ∀ c ∈ s.data, c ≠ '[' := by
    intro c hc
    simpa using List.all_eq_true.mp h c hc
  show String.mk (stripCites s.data) = s
  rw [stripCites_of_noLB hl]

/-! ### Appending a citation annotation to clean content -/

theorem sourceTag_chars : sourceTag = ['[', 'S', 'o', 'u', 'r', 'c', 'e', ':'] := rfl

/-- True when the last character (if any) is not white space. -/
def lastOk (l : List Char) : Bool :=
  match l.getLast? with
  | some c => !isJsWs c
  | none => true

/-- Content text free of opening brackets and not ending in white space:
the shape of ordinary bullet text in front of a citation annotation. -/
def cleanContent (s : String) : Bool :=
  s.data.all (fun c => c != '[') && lastOk s.data

/-- A non-empty filename with no closing bracket, as a citation body. -/
def goodFilename (f : String) : Bool :=
  !f.data.isEmpty && f.data.all (fun c => c != ']')

/-- The inline citation annotation appended to a bullet. -/
def citeStr (f : String) : String := " [Source: " ++ f ++ "]"

theorem matchChars_self_append : ∀ (p l : List Char), matchChars p (p ++ l) = some l := by
  intro p
  induction p with
  | nil => intro l; rfl
  | cons c cs ih =>
    intro l
    simp only [List.cons_append, matchChars, if_pos rfl]
    exact ih l

theorem dropWhile_append_of_all {p : Char → Bool} {l1 l2 : List Char}
    (h : ∀ c ∈ l1, p c = true) :
    (l1 ++ l2).dropWhile p = l2.dropWhile p := by
  rw [List.dropWhile_append, if_pos]
  rw [List.isEmpty_iff, List.dropWhile_eq_nil_iff]
  exact h

theorem dropWhile_append_of_ne_nil {p : Char → Bool} {l1 l2 : List Char}
    (h : l1.dropWhile p ≠ []) :
    (l1 ++ l2).dropWhile p = l1.dropWhile p ++ l2 := by
  rw [List.dropWhile_append, if_neg]
  rw [List.isEmpty_iff]
  exact h

theorem citeStr_data (f : String) :
    (citeStr f).data = ' ' :: (sourceTag ++ (' ' :: (f.data ++ [']']))) := by
  show (" [Source: " ++ f ++ "]").data = _
  rw [String.data_append, String.data_append]
  rfl

theorem tryCite_citeStr (f : String) (hf : goodFilename f = true) :
    tryCite (citeStr f).data = some [] := by
  have hnr : ∀ c ∈ f.data, (c != ']') = true := by
    have := (Bool.and_eq_true _ _).mp hf
    exact List.all_eq_true.mp this.2
  have hdw : (citeStr f).data.dropWhile isJsWs = sourceTag ++ (' ' :: (f.data ++ [']'])) := by
    rw [citeStr_data, List.dropWhile_cons, if_pos (by decide), sourceTag_chars,
      List.cons_append, List.dropWhile_cons, if_neg (by decide)]
  unfold tryCite
  rw [hdw, matchChars_self_append]
  dsimp only
  have htw : ((' ' :: (f.data ++ [']'])).takeWhile (fun c => c != ']')).isEmpty = false := by
    rw [List.takeWhile_cons, if_pos (by decide)]
    rfl
  rw [if_neg (by rw [htw]; exact Bool.false_ne_true)]
  have hdw2 : (' ' :: (f.data ++ [']'])).dropWhile (fun c => c != ']') = [']'] := by
    rw [List.dropWhile_cons, if_pos (by decide), dropWhile_append_of_all hnr]
    rfl
  rw [hdw2]
  rfl

theorem dropWhile_ne_nil_of_lastOk {l : List Char} (hne : l ≠ []) (h : lastOk l = true) :
    l.dropWhile isJsWs ≠ [] := by
  intro hd
  have hgl : l.getLast? = some (l.getLast hne) := List.getLast?_eq_getLast l hne
  unfold lastOk at h
  rw [hgl] at h
  dsimp only at h
  have hmem : l.getLast hne ∈ l := List.getLast_mem hne
  have hws := List.dropWhile_eq_nil_iff.mp hd _ hmem
  rw [hws] at h
  simp at h

theorem lastOk_of_cons {c : Char} {cs : List Char} (h : lastOk (c :: cs) = true) :
    lastOk cs = true := by
  cases cs with
  | nil => rfl
  | cons d t =>
    unfold lastOk at h ⊢
    rw [List.getLast?_cons_cons] at h
    exact h

theorem stripCitesAux_append_cite (f : String) (hf : goodFilename f = true) :
    ∀ (l : List Char) (fuel : Nat),
      (l ++ (citeStr f).data).length ≤ fuel →
      (∀ c ∈ l, c ≠ '[') → lastOk l = true →
      stripCitesAux fuel (l ++ (citeStr f).data) = l := by
  intro l
  induction l with
  | nil =>
    intro fuel hfuel _ _
    rw [List.nil_append] at hfuel ⊢
    rw [citeStr_data] at hfuel
    cases fuel with
    | zero => simp at hfuel
    | succ fuel =>
      have ht := tryCite_citeStr f hf
      rw [citeStr_data] at ht ⊢
      have hstep : stripCitesAux (fuel + 1) (' ' :: (sourceTag ++ (' ' :: (f.data ++ [']']))))
          = match tryCite (' ' :: (sourceTag ++ (' ' :: (f.data ++ [']'])))) with
            | some r => stripCitesAux fuel r
            | none => ' ' :: stripCitesAux fuel (sourceTag ++ (' ' :: (f.data ++ [']']))) := rfl
      rw [hstep, ht]
      exact stripCitesAux_nil fuel
  | cons c cs ih =>
    intro fuel hfuel hno hlast
    cases fuel with
    | zero => simp at hfuel
    | succ fuel =>
      rw [List.cons_append]
      have hstep : stripCitesAux (fuel + 1) (c :: (cs ++ (citeStr f).data))
          = match tryCite (c :: (cs ++ (citeStr f).data)) with
            | some r => stripCitesAux fuel r
            | none => c :: stripCitesAux fuel (cs ++ (citeStr f).data) := rfl
      have hnone : tryCite (c :: (cs ++ (citeStr f).data)) = none := by
        have hne : (c :: cs).dropWhile isJsWs ≠ [] :=
          dropWhile_ne_nil_of_lastOk (List.cons_ne_nil c cs) hlast
        unfold tryCite
        rw [← List.cons_append, dropWhile_append_of_ne_nil hne]
        cases hdd : (c :: cs).dropWhile isJsWs with
        | nil => exact absurd hdd hne
        | cons d t =>
          have hdmem : d ∈ c :: cs :=
            (List.dropWhile_sublist isJsWs).mem (hdd ▸ List.mem_cons_self d t)
          rw [List.cons_append, sourceTag_chars]
          simp only [matchChars, if_neg (hno d hdmem)]
      rw [hstep, hnone]
      have hcs := ih fuel (by simp only [List.cons_append, List.length_cons] at hfuel; omega)
        (fun d hd => hno d (List.mem_cons_of_mem c hd)) (lastOk_of_cons hlast)
      rw [hcs]

theorem removeCitations_append_cite {s f : String} (hs : cleanContent s = true)
    (hf : goodFilename f = true) :
    removeCitations (s ++ citeStr f) = s := by
  have hno : ∀ c ∈ s.data, c ≠ '[' := by
    intro c hc
    simpa using List.all_eq_true.mp ((Bool.and_eq_true _ _).mp hs).1 c hc
  have hlast : lastOk s.data = true := ((Bool.and_eq_true _ _).mp hs).2
  show String.mk (stripCites (s ++ citeStr f).data) = s
  rw [String.data_append, stripCites,
    stripCitesAux_append_cite f hf s.data _ le_rfl hno hlast]

theorem removeCitations_of_clean {s : String} (hs : cleanContent s = true) :
    removeCitations s = s := by
  apply removeCitations_of_noLB
  exact ((Bool.and_eq_true _ _).mp hs).1

/-! ### Claim C8: what calculateWordCount counts -/

/-- The brief with `removeCitations` applied to every counted text field
(including the actionChecklist owner/task/dueDate fields). -/
def stripCountedText (b : Brief) : Brief :=
  { goal := removeCitations b.goal
    context := b.context.map removeCitations
    options := b.options.map (fun o =>
      { option := removeCitations o.option
        pros := o.pros.map removeCitations
        cons := o.cons.map removeCitations })
    risksTradeoffs := b.risksTradeoffs.map removeCitations
    decisions := b.decisions.map removeCitations
    actionChecklist := b.actionChecklist.map (fun a =>
      { owner := removeCitations a.owner
        task := removeCitations a.task
        dueDate := removeCitations a.dueDate })
    sources := b.sources }

/-- A brief whose only text is a citation annotation sitting in an
actionChecklist task. -/
def checklistCiteBrief : Brief :=
  { goal := "", context := [], options := [], risksTradeoffs := [], decisions := [],
    actionChecklist := [{ owner := "", task := "[Source: a]", dueDate := "" }],
    sources := [] }

/-- Claim C8 counterexample: a citation annotation inside an actionChecklist
task is counted (two words here), so the count is not computed on
citation-stripped text for every brief value — actionChecklist text is
counted verbatim. -/
theorem C8_counterexample :
    calculateWordCount checklistCiteBrief ≠
      calculateWordCount (stripCountedText checklistCiteBrief) := by decide

/-- Append the inline citation annotation for `f` to every content string
that calculateWordCount passes through removeCitations. -/
def citeOption (f : String) (o : OptionItem) : OptionItem :=
  { option := o.option ++ citeStr f
    pros := o.pros.map (fun s => s ++ citeStr f)
    cons := o.cons.map (fun s => s ++ citeStr f) }

def appendCiteAll (b : Brief) (f : String) : Brief :=
  { b with
    goal := b.goal ++ citeStr f
    context := b.context.map (fun s => s ++ citeStr f)
    options := b.options.map (citeOption f)
    risksTradeoffs := b.risksTradeoffs.map (fun s => s ++ citeStr f)
    decisions := b.decisions.map (fun s => s ++ citeStr f) }

def briefCleanContents (b : Brief) : Bool :=
  cleanContent b.goal && b.context.all cleanContent &&
  b.options.all (fun o =>
    cleanContent o.option && o.pros.all cleanContent && o.cons.all cleanContent) &&
  b.risksTradeoffs.all cleanContent && b.decisions.all cleanContent

theorem map_removeCitations_cite {f : String} (hf : goodFilename f = true)
    {l : List String} (hl : ∀ s ∈ l, cleanContent s = true) :
    (l.map (fun s => s ++ citeStr f)).map removeCitations = l.map removeCitations := by
  rw [List.map_map]
  apply List.map_congr_left
  intro s hs
  show removeCitations (s ++ citeStr f) = removeCitations s
  rw [removeCitations_append_cite (hl s hs) hf, removeCitations_of_clean (hl s hs)]

theorem briefText_appendCiteAll (b : Brief) (f : String)
    (hb : briefCleanContents b = true) (hf : goodFilename f = true) :
    briefText (appendCiteAll b f) = briefText b := by
  have hparts := hb
  unfold briefCleanContents at hparts
  simp only [Bool.and_eq_true, List.all_eq_true] at hparts
  obtain ⟨⟨⟨⟨hgoal, hctx⟩, hopt⟩, hrisk⟩, hdec⟩ := hparts
  have hopts : ∀ init : String,
      (b.options.map (citeOption f)).foldl optionFold init
        = b.options.foldl optionFold init := by
    intro init
    rw [List.foldl_map]
    apply List.foldl_ext
    intro acc o ho
    obtain ⟨⟨ho1, ho2⟩, ho3⟩ := by
      simpa only [Bool.and_eq_true, List.all_eq_true] using hopt o ho
    show optionFold acc (citeOption f o) = optionFold acc o
    unfold optionFold citeOption
    rw [removeCitations_append_cite ho1 hf, removeCitations_of_clean ho1,
      map_removeCitations_cite hf ho2, map_removeCitations_cite hf ho3]
  unfold briefText appendCiteAll
  dsimp only
  rw [removeCitations_append_cite hgoal hf, removeCitations_of_clean hgoal,
    map_removeCitations_cite hf hctx, map_removeCitations_cite hf hrisk,
    map_removeCitations_cite hf hdec, hopts]

/-- Claim C8 (amended): the sources list contributes nothing to the word
count, and citation annotations appended to goal, context, options
(option text, pros, cons), risksTradeoffs or decisions are stripped before
counting (actionChecklist text, by the counterexample, is counted
verbatim). -/
theorem C8_theorem (b : Brief) (srcs : List SourceEntry) (f : String)
    (hb : briefCleanContents b = true) (hf : goodFilename f = true) :
    calculateWordCount { b with sources := srcs } = calculateWordCount b ∧
    calculateWordCount (appendCiteAll b f) = calculateWordCount b := by
  constructor
  · rfl
  · unfold calculateWordCount
    rw [briefText_appendCiteAll b f hb hf]

/-- A clean brief and filename for the C8 witness. -/
def cleanBrief : Brief :=
  { goal := "Decide the vendor", context := ["Budget is fixed"],
    options := [{ option := "Build", pros := ["control"], cons := ["slow"] }],
    risksTradeoffs := ["Delay risk"], decisions := [], actionChecklist := [],
    sources := [] }

/-- Witness for C8 at a concrete clean brief and filename. -/
theorem C8_witness :
    calculateWordCount { cleanBrief with sources := [⟨"x", some "a.txt", none⟩] }
        = calculateWordCount cleanBrief ∧
      calculateWordCount (appendCiteAll cleanBrief "notes.txt")
        = calculateWordCount cleanBrief :=
  C8_theorem cleanBrief [⟨"x", some "a.txt", none⟩] "notes.txt" (by decide) (by decide)

/-! ### Claim C9: CSV vs Excel header heuristics (document-parser.ts)

`parseCSV` classifies the first row as a header row when some cell is
truthy (non-empty), `isNaN(Number(cell))`, and does not match the date
regular expression matching one or two digits, a slash or dash, one or two
digits, a slash or dash, and two to four digits.  `parseExcel` classifies
the first row as a header row when some cell is a non-empty string with
`isNaN(Number(cell))` — with no date test.  The recognizers below embed
the NaN-ness of the JavaScript `Number(string)` conversion. -/

def isJsDecDigit (c : Char) : Bool := '0' ≤ c && c ≤ '9'

def isJsHexDigit (c : Char) : Bool :=
  isJsDecDigit c || ('a' ≤ c && c ≤ 'f') || ('A' ≤ c && c ≤ 'F')

def isJsOctDigit (c : Char) : Bool := '0' ≤ c && c ≤ '7'

def isJsBinDigit (c : Char) : Bool := c = '0' || c = '1'

/-- An optional sign followed by a non-empty run of decimal digits. -/
def signedDigits (l : List Char) : Bool :=
  match l with
  | '+' :: t => !t.isEmpty && t.all isJsDecDigit
  | '-' :: t => !t.isEmpty && t.all isJsDecDigit
  | _ => !l.isEmpty && l.all isJsDecDigit

/-- Empty, or an exponent part `e`/`E` with optionally signed digits. -/
def expTailOk (l : List Char) : Bool :=
  match l with
  | [] => true
  | c :: r => (c = 'e' || c = 'E') && signedDigits r

/-- An unsigned decimal literal, possibly with a fractional part and an
exponent, spanning the whole list. -/
def unsignedDecOk (l : List Char) : Bool :=
  match l.dropWhile isJsDecDigit with
  | '.' :: r =>
    (!(l.takeWhile isJsDecDigit).isEmpty || !(r.takeWhile isJsDecDigit).isEmpty) &&
      expTailOk (r.dropWhile isJsDecDigit)
  | rest => !(l.takeWhile isJsDecDigit).isEmpty && expTailOk rest

def decOrInfinity (l : List Char) : Bool :=
  (l == "Infinity".data) || unsignedDecOk l

def signedDecOrInf (l : List Char) : Bool :=
  match l with
  | '+' :: r => decOrInfinity r
  | '-' :: r => decOrInfinity r
  | _ => decOrInfinity l

/-- Whole-list recognizer for the ECMAScript StringNumericLiteral grammar
(after trimming): decimal literals with optional sign and exponent,
`Infinity`, and unsigned hexadecimal, octal and binary literals. -/
def isStrNumericLiteral (l : List Char) : Bool :=
  match l with
  | '0' :: c :: r =>
    if c = 'x' || c = 'X' then !r.isEmpty && r.all isJsHexDigit
    else if c = 'o' || c = 'O' then !r.isEmpty && r.all isJsOctDigit
    else if c = 'b' || c = 'B' then !r.isEmpty && r.all isJsBinDigit
    else signedDecOrInf l
  | _ => signedDecOrInf l

def trimJsWs (l : List Char) : List Char :=
  ((l.dropWhile isJsWs).reverse.dropWhile isJsWs).reverse

/-- `isNaN(Number(s))` for a string `s`: the trimmed string is non-empty
(the empty string converts to 0) and is not a numeric literal. -/
def jsNumberIsNaN (s : String) : Bool :=
  !(trimJsWs s.data).isEmpty && !isStrNumericLiteral (trimJsWs s.data)

/-- The anchored date regular expression of parseCSV: one or two digits, a
slash or dash, one or two digits, a slash or dash, two to four digits. -/
def isDatePattern (l : List Char) : Bool :=
  match l.dropWhile isJsDecDigit with
  | s1 :: r2 =>
    (s1 = '/' || s1 = '-') &&
    (1 ≤ (l.takeWhile isJsDecDigit).length && (l.takeWhile isJsDecDigit).length ≤ 2) &&
    (match r2.dropWhile isJsDecDigit with
     | s2 :: r4 =>
       (s2 = '/' || s2 = '-') &&
       (1 ≤ (r2.takeWhile isJsDecDigit).length && (r2.takeWhile isJsDecDigit).length ≤ 2) &&
       (r4.all isJsDecDigit && 2 ≤ r4.length && r4.length ≤ 4)
     | [] => false)
  | [] => false

/-- parseCSV line 162-164: cell truthy, non-numeric, not date-shaped. -/
def csvHeaderCell (cell : String) : Bool :=
  !cell.isEmpty && jsNumberIsNaN cell && !isDatePattern cell.data

def csvHasHeaders (firstRow : List String) : Bool := firstRow.any csvHeaderCell

/-- A spreadsheet cell as produced by sheet_to_json with header 1. -/
inductive XCell
  | str (s : String)
  | num (n : Int)
  | bool (b : Bool)
deriving Repr, DecidableEq

/-- parseExcel lines 211-214: the cell is a non-empty string whose
`Number` conversion is NaN; non-string cells never qualify. -/
def excelHeaderCell : XCell → Bool
  | .str s => !s.isEmpty && jsNumberIsNaN s
  | _ => false

def excelHasHeaders (firstRow : List XCell) : Bool := firstRow.any excelHeaderCell

/-- Claim C9 counterexample: on the single-cell first row "1/2/2023" the
CSV heuristic sees a date pattern and reports no header, while the Excel
heuristic, which lacks the date test, reports a header row. -/
theorem C9_counterexample :
    excelHasHeaders ([("1/2/2023" : String)].map XCell.str)
      ≠ csvHasHeaders ["1/2/2023"] := by decide

/-- Claim C9 (amended): the two header heuristics agree on every first row
of string cells in which no cell matches the date pattern; they differ
exactly on date-shaped cells (and the Excel heuristic also ignores
non-string cells). -/
theorem C9_theorem (row : List String)
    (h : ∀ s ∈ row, isDatePattern s.data = false) :
    excelHasHeaders (row.map XCell.str) = csvHasHeaders row := by
  induction row with
  | nil => rfl
  | cons s t ih =>
    unfold excelHasHeaders csvHasHeaders at ih ⊢
    rw [List.map_cons, List.any_cons, List.any_cons, ih (fun u hu => h u (List.mem_cons_of_mem s hu))]
    have hs : isDatePattern s.data = false := h s (List.mem_cons_self s t)
    show (excelHeaderCell (XCell.str s) || _) = (csvHeaderCell s || _)
    unfold excelHeaderCell csvHeaderCell
    rw [hs]
    simp [Bool.and_assoc]

/-- Witness for C9 (amended) on a concrete date-free header row. -/
theorem C9_witness :
    excelHasHeaders ([("Name" : String), "42"].map XCell.str)
      = csvHasHeaders ["Name", "42"] :=
  C9_theorem ["Name", "42"] (by decide)

/-! ### Claim C7: callOpenAIWithRetry (openai-client.ts lines 24-75)

The network call is modelled by an environment `outcomes` giving, for each
attempt number, either the returned content or the thrown error message
(the no-content case throws and is an error outcome).  The model records
the result, the list of back-off sleeps in milliseconds, and the number of
attempts performed. -/

inductive AttemptOutcome
  | ok (content : String)
  | err (msg : String)
deriving Repr, DecidableEq

/-- JavaScript `hay.includes(needle)` on character lists. -/
def listContainsSub : List Char → List Char → Bool
  | needle, [] => needle.isEmpty
  | needle, c :: cs => (matchChars needle (c :: cs)).isSome || listContainsSub needle cs

def jsIncludes (hay needle : String) : Bool := listContainsSub needle.data hay.data

/-- Line 61-62: the non-retryable test on the caught error message. -/
def isAuthErrorMsg (msg : String) : Bool :=
  jsIncludes msg "Invalid API key" || jsIncludes msg "authentication"

structure RetryResult where
  result : Except String String
  sleeps : List Nat
  attemptsUsed : Nat
deriving Repr

/-- The retry loop.  `attempt` is the 1-based attempt counter, `left` the
number of attempts still allowed (including the current one), `lastErr`
the message of the previous failure.  `left = 0` is the exit of the loop,
throwing an error naming the attempt bound and the last cause (JavaScript
interpolates a null `lastError` as "undefined"). -/
def retryAux (outcomes : Nat → AttemptOutcome) (retries : Nat) :
    Nat → Nat → Option String → RetryResult
  | attempt, 0, lastErr =>
    { result := .error ("OpenAI API failed after " ++ toString retries ++ " attempts: "
        ++ lastErr.getD "undefined")
      sleeps := [], attemptsUsed := attempt - 1 }
  | attempt, left + 1, _ =>
    match outcomes attempt with
    | .ok c => { result := .ok c, sleeps := [], attemptsUsed := attempt }
    | .err m =>
      if isAuthErrorMsg m then
        { result := .error ("OpenAI authentication failed: " ++ m), sleeps := [],
          attemptsUsed := attempt }
      else if left > 0 then
        let r := retryAux outcomes retries (attempt + 1) left (some m)
        { result := r.result, sleeps := (1000 * 2 ^ (attempt - 1)) :: r.sleeps,
          attemptsUsed := r.attemptsUsed }
      else
        { result := .error ("OpenAI API failed after " ++ toString retries
            ++ " attempts: " ++ m)
          sleeps := [], attemptsUsed := attempt }

def callOpenAIWithRetry (outcomes : Nat → AttemptOutcome) : RetryResult :=
  retryAux outcomes 3 1 3 none

theorem callRetry_unfold1 (outcomes : Nat → AttemptOutcome) :
    callOpenAIWithRetry outcomes
      = match outcomes 1 with
        | .ok c => ⟨.ok c, [], 1⟩
        | .err m =>
          if isAuthErrorMsg m then ⟨.error ("OpenAI authentication failed: " ++ m), [], 1⟩
          else ⟨(retryAux outcomes 3 2 2 (some m)).result,
            1000 :: (retryAux outcomes 3 2 2 (some m)).sleeps,
            (retryAux outcomes 3 2 2 (some m)).attemptsUsed⟩ := rfl

theorem retryAux_unfold2 (outcomes : Nat → AttemptOutcome) (le : Option String) :
    retryAux outcomes 3 2 2 le
      = match outcomes 2 with
        | .ok c => ⟨.ok c, [], 2⟩
        | .err m =>
          if isAuthErrorMsg m then ⟨.error ("OpenAI authentication failed: " ++ m), [], 2⟩
          else ⟨(retryAux outcomes 3 3 1 (some m)).result,
            2000 :: (retryAux outcomes 3 3 1 (some m)).sleeps,
            (retryAux outcomes 3 3 1 (some m)).attemptsUsed⟩ := rfl

theorem retryAux_unfold3 (outcomes : Nat → AttemptOutcome) (le : Option String) :
    retryAux outcomes 3 3 1 le
      = match outcomes 3 with
        | .ok c => ⟨.ok c, [], 3⟩
        | .err m =>
          if isAuthErrorMsg m then ⟨.error ("OpenAI authentication failed: " ++ m), [], 3⟩
          else ⟨.error ("OpenAI API failed after 3 attempts: " ++ m), [], 3⟩ := rfl

/-- Claim C7: the generation call makes at most 3 attempts; the sleeps
performed form an initial segment of the exponential schedule 1000ms then
2000ms; an authentication failure at any attempt aborts at that attempt
with no further sleep; after three non-authentication failures the result
is an error naming the attempt bound and the last cause. -/
theorem C7_theorem (outcomes : Nat → AttemptOutcome) :
    (callOpenAIWithRetry outcomes).attemptsUsed ≤ 3 ∧
    (∃ n, (callOpenAIWithRetry outcomes).sleeps = [1000, 2000].take n) ∧
    (∀ m, outcomes 1 = .err m → isAuthErrorMsg m = true →
      callOpenAIWithRetry outcomes
        = ⟨.error ("OpenAI authentication failed: " ++ m), [], 1⟩) ∧
    (∀ m1 m2, outcomes 1 = .err m1 → isAuthErrorMsg m1 = false →
      outcomes 2 = .err m2 → isAuthErrorMsg m2 = true →
      callOpenAIWithRetry outcomes
        = ⟨.error ("OpenAI authentication failed: " ++ m2), [1000], 2⟩) ∧
    (∀ m1 m2 m3, outcomes 1 = .err m1 → isAuthErrorMsg m1 = false →
      outcomes 2 = .err m2 → isAuthErrorMsg m2 = false →
      outcomes 3 = .err m3 → isAuthErrorMsg m3 = true →
      callOpenAIWithRetry outcomes
        = ⟨.error ("OpenAI authentication failed: " ++ m3), [1000, 2000], 3⟩) ∧
    (∀ m1 m2 m3, outcomes 1 = .err m1 → isAuthErrorMsg m1 = false →
      outcomes 2 = .err m2 → isAuthErrorMsg m2 = false →
      outcomes 3 = .err m3 → isAuthErrorMsg m3 = false →
      callOpenAIWithRetry outcomes
        = ⟨.error ("OpenAI API failed after 3 attempts: " ++ m3), [1000, 2000], 3⟩) := by
  have hbound : (callOpenAIWithRetry outcomes).attemptsUsed ≤ 3 ∧
      ∃ n, (callOpenAIWithRetry outcomes).sleeps = [1000, 2000].take n := by
    rw [callRetry_unfold1]
    cases h1 : outcomes 1 with
    | ok c => exact ⟨by show (1 : Nat) ≤ 3; omega, 0, rfl⟩
    | err m =>
      dsimp only
      by_cases a1 : isAuthErrorMsg m = true
      · rw [if_pos a1]
        exact ⟨by show (1 : Nat) ≤ 3; omega, 0, rfl⟩
      · rw [if_neg a1, retryAux_unfold2]
        cases h2 : outcomes 2 with
        | ok c => exact ⟨by show (2 : Nat) ≤ 3; omega, 1, rfl⟩
        | err m2 =>
          dsimp only
          by_cases a2 : isAuthErrorMsg m2 = true
          · rw [if_pos a2]
            exact ⟨by show (2 : Nat) ≤ 3; omega, 1, rfl⟩
          · rw [if_neg a2, retryAux_unfold3]
            cases h3 : outcomes 3 with
            | ok c => exact ⟨by show (3 : Nat) ≤ 3; omega, 2, rfl⟩
            | err m3 =>
              dsimp only
              by_cases a3 : isAuthErrorMsg m3 = true
              · rw [if_pos a3]
                exact ⟨by show (3 : Nat) ≤ 3; omega, 2, rfl⟩
              · rw [if_neg a3]
                exact ⟨by show (3 : Nat) ≤ 3; omega, 2, rfl⟩
  refine ⟨hbound.1, hbound.2, ?_, ?_, ?_, ?_⟩
  · intro m h1 ha
    rw [callRetry_unfold1, h1]
    dsimp only
    rw [if_pos ha]
  · intro m1 m2 h1 ha1 h2 ha2
    rw [callRetry_unfold1, h1]
    dsimp only
    rw [if_neg (by rw [ha1]; exact Bool.false_ne_true), retryAux_unfold2, h2]
    dsimp only
    rw [if_pos ha2]
  · intro m1 m2 m3 h1 ha1 h2 ha2 h3 ha3
    rw [callRetry_unfold1, h1]
    dsimp only
    rw [if_neg (by rw [ha1]; exact Bool.false_ne_true), retryAux_unfold2, h2]
    dsimp only
    rw [if_neg (by rw [ha2]; exact Bool.false_ne_true), retryAux_unfold3, h3]
    dsimp only
    rw [if_pos ha3]
  · intro m1 m2 m3 h1 ha1 h2 ha2 h3 ha3
    rw [callRetry_unfold1, h1]
    dsimp only
    rw [if_neg (by rw [ha1]; exact Bool.false_ne_true), retryAux_unfold2, h2]
    dsimp only
    rw [if_neg (by rw [ha2]; exact Bool.false_ne_true), retryAux_unfold3, h3]
    dsimp only
    rw [if_neg (by rw [ha3]; exact Bool.false_ne_true)]

/-- A concrete environment failing transiently on every attempt. -/
def allFailOutcomes : Nat → AttemptOutcome := fun _ => .err "socket hang up"

/-- Witness for C7: three transient failures exhaust the retry budget with
the exponential back-off schedule and the consolidated error message. -/
theorem C7_witness :
    callOpenAIWithRetry allFailOutcomes
      = ⟨.error ("OpenAI API failed after 3 attempts: " ++ "socket hang up"),
         [1000, 2000], 3⟩ :=
  (C7_theorem allFailOutcomes).2.2.2.2.2 "socket hang up" "socket hang up" "socket hang up"
    rfl (by decide) rfl (by decide) rfl (by decide)

/-! ### Claims C4-C6: the processJob state machine (routes.ts lines 63-169)

The storage is abstracted to the single job record plus counters of
created rows.  Each fallible pipeline operation is indexed in program
order; the environment says whether it throws and with which message
(ops that throw perform no write; the catch-block update that marks the
job failed is assumed to succeed).  Operation indices: 0 the
processing/10 update, 1 the progress-30 update, 2 generateBriefWithAI,
3 the progress-70 update, 4 createMeeting, 5 createBrief, 6 the
progress-85 update, per-document createDocument via docFail, 8
createAnalytic, 9 the completed/100 update. -/

structure Job where
  status : String
  progress : Nat
  resultBriefId : Option Nat
  error : Option String
  docFiles : Option Nat
deriving Repr, DecidableEq

/-- A partial update as passed to dbStorage.updateJob: absent fields are
left unchanged by the row update. -/
structure JobUpdate where
  status : Option String
  progress : Option Nat
  resultBriefId : Option Nat
  error : Option String
deriving Repr, DecidableEq

def applyUpdate (j : Job) (u : JobUpdate) : Job :=
  { j with
    status := u.status.getD j.status
    progress := u.progress.getD j.progress
    resultBriefId := u.resultBriefId.or j.resultBriefId
    error := u.error.or j.error }

inductive PEvent
  | updJob (u : JobUpdate)
  | newMeeting
  | newBrief (id : Nat)
  | newDocument
  | newAnalytic
deriving Repr, DecidableEq

structure PState where
  job : Option Job
  meetings : Nat
  briefs : Nat
  documents : Nat
  analytics : Nat
deriving Repr, DecidableEq

def applyEvent (s : PState) (e : PEvent) : PState :=
  match e with
  | .updJob u => { s with job := s.job.map (fun j => applyUpdate j u) }
  | .newMeeting => { s with meetings := s.meetings + 1 }
  | .newBrief _ => { s with briefs := s.briefs + 1 }
  | .newDocument => { s with documents := s.documents + 1 }
  | .newAnalytic => { s with analytics := s.analytics + 1 }

def updProcessing : JobUpdate := ⟨some "processing", some 10, none, none⟩

def updProgress (p : Nat) : JobUpdate := ⟨none, some p, none, none⟩

def updCompleted (briefId : Nat) : JobUpdate := ⟨some "completed", some 100, some briefId, none⟩

def updFailed (m : String) : JobUpdate := ⟨some "failed", none, none, some m⟩

def failEvt (m : String) : PEvent := .updJob (updFailed m)

structure ProcEnv where
  opFail : Nat → Option String
  docFail : Nat → Option String

/-- The createDocument loop over `k` remaining documentFiles entries,
starting at index `i`: stops at the first throwing insert. -/
def createDocs (docFail : Nat → Option String) : Nat → Nat → List PEvent × Option String
  | _, 0 => ([], none)
  | i, k + 1 =>
    match docFail i with
    | some m => ([], some m)
    | none =>
      let r := createDocs docFail (i + 1) k
      (PEvent.newDocument :: r.1, r.2)

/-- The write trace of one guarded pipeline run: every storage write in
program order, ending with the completed update, or cut short by the
failed update the catch block performs. -/
def pipelineTrace (env : ProcEnv) (docFiles : Option Nat) (briefId : Nat) : List PEvent :=
  match env.opFail 0 with
  | some m => [failEvt m]
  | none => PEvent.updJob updProcessing ::
    match env.opFail 1 with
    | some m => [failEvt m]
    | none => PEvent.updJob (updProgress 30) ::
      match env.opFail 2 with
      | some m => [failEvt ("Failed to generate brief: " ++ m)]
      | none =>
        match env.opFail 3 with
        | some m => [failEvt m]
        | none => PEvent.updJob (updProgress 70) ::
          match env.opFail 4 with
          | some m => [failEvt m]
          | none => PEvent.newMeeting ::
            match env.opFail 5 with
            | some m => [failEvt m]
            | none => PEvent.newBrief briefId ::
              match env.opFail 6 with
              | some m => [failEvt m]
              | none => PEvent.updJob (updProgress 85) ::
                (let docs := match docFiles with
                  | none => (([] : List PEvent), (none : Option String))
                  | some n => createDocs env.docFail 0 n
                 docs.1 ++
                  match docs.2 with
                  | some m => [failEvt m]
                  | none =>
                    match env.opFail 8 with
                    | some m => [failEvt m]
                    | none => PEvent.newAnalytic ::
                      match env.opFail 9 with
                      | some m => [failEvt m]
                      | none => [PEvent.updJob (updCompleted briefId)])

/-- The trigger: a no-op unless the job exists with status exactly
"pending"; otherwise runs the pipeline, returning the new storage state
and the trace of writes.  The id of the created brief is the brief
counter. -/
def processJob (env : ProcEnv) (s : PState) : PState × List PEvent :=
  match s.job with
  | none => (s, [])
  | some j =>
    if j.status = "pending" then
      let tr := pipelineTrace env j.docFiles s.briefs
      (tr.foldl applyEvent s, tr)
    else (s, [])

/-- A job as created by the submission endpoint (status pending,
progress 0, no result, no error). -/
def initialJob (docFiles : Option Nat) : Job :=
  { status := "pending", progress := 0, resultBriefId := none, error := none,
    docFiles := docFiles }

def progressOf : PEvent → Option Nat
  | .updJob u => u.progress
  | _ => none

/-- The successive progress values written by a trace. -/
def progressWrites (tr : List PEvent) : List Nat := tr.filterMap progressOf

/-- Events a run may emit before its terminal update. -/
def nonTerminalOk (e : PEvent) : Prop :=
  match e with
  | .updJob u =>
    u = updProcessing ∨ u = updProgress 30 ∨ u = updProgress 70 ∨ u = updProgress 85
  | _ => True

theorem createDocs_events (df : Nat → Option String) :
    ∀ (k i : Nat), ∀ e ∈ (createDocs df i k).1, e = PEvent.newDocument := by
  intro k
  induction k with
  | zero =>
    intro i e he
    simp [createDocs] at he
  | succ k ih =>
    intro i e he
    cases hd : df i with
    | some m =>
      simp only [createDocs, hd] at he
      exact absurd he (List.not_mem_nil e)
    | none =>
      simp only [createDocs, hd] at he
      rcases List.mem_cons.mp he with h | h
      · exact h
      · exact ih (i + 1) e h

theorem progressWrites_append (l1 l2 : List PEvent) :
    progressWrites (l1 ++ l2) = progressWrites l1 ++ progressWrites l2 :=
  List.filterMap_append l1 l2 progressOf

theorem progressWrites_of_docs {devs : List PEvent}
    (h : ∀ e ∈ devs, e = PEvent.newDocument) : progressWrites devs = [] := by
  induction devs with
  | nil => rfl
  | cons e t ih =>
    rw [h e (List.mem_cons_self e t)]
    show progressWrites (PEvent.newDocument :: t) = []
    rw [progressWrites, List.filterMap_cons]
    exact ih (fun d hd => h d (List.mem_cons_of_mem e hd))


theorem nonTerminalOk_base (bid : Nat) :
    ∀ e ∈ [PEvent.updJob updProcessing, PEvent.updJob (updProgress 30),
      PEvent.updJob (updProgress 70), PEvent.newMeeting, PEvent.newBrief bid,
      PEvent.updJob (updProgress 85)], nonTerminalOk e := by
  intro e he
  simp only [List.mem_cons, List.not_mem_nil, or_false] at he
  rcases he with rfl | rfl | rfl | rfl | rfl | rfl
  all_goals simp [nonTerminalOk]

theorem pipelineTrace_master (env : ProcEnv) (df : Option Nat) (bid : Nat) :
    ∃ pre tail, pipelineTrace env df bid = pre ++ tail ∧
      (∀ e ∈ pre, nonTerminalOk e) ∧
      ((∃ m, tail = [failEvt m]) ∨ tail = [PEvent.updJob (updCompleted bid)]) ∧
      (∃ n, progressWrites (pre ++ tail) = [10, 30, 70, 85, 100].take n) := by
  unfold pipelineTrace
  cases h0 : env.opFail 0 with
  | some m => exact ⟨[], [failEvt m], rfl, by simp, Or.inl ⟨m, rfl⟩, 0, rfl⟩
  | none =>
  cases h1 : env.opFail 1 with
  | some m =>
    exact ⟨[PEvent.updJob updProcessing], [failEvt m], rfl,
      by simp [nonTerminalOk], Or.inl ⟨m, rfl⟩, 1, rfl⟩
  | none =>
  cases h2 : env.opFail 2 with
  | some m =>
    exact ⟨[PEvent.updJob updProcessing, PEvent.updJob (updProgress 30)],
      [failEvt ("Failed to generate brief: " ++ m)], rfl,
      by simp [nonTerminalOk], Or.inl ⟨_, rfl⟩, 2, rfl⟩
  | none =>
  cases h3 : env.opFail 3 with
  | some m =>
    exact ⟨[PEvent.updJob updProcessing, PEvent.updJob (updProgress 30)],
      [failEvt m], rfl, by simp [nonTerminalOk], Or.inl ⟨m, rfl⟩, 2, rfl⟩
  | none =>
  cases h4 : env.opFail 4 with
  | some m =>
    exact ⟨[PEvent.updJob updProcessing, PEvent.updJob (updProgress 30),
      PEvent.updJob (updProgress 70)], [failEvt m], rfl,
      by simp [nonTerminalOk], Or.inl ⟨m, rfl⟩, 3, rfl⟩
  | none =>
  cases h5 : env.opFail 5 with
  | some m =>
    exact ⟨[PEvent.updJob updProcessing, PEvent.updJob (updProgress 30),
      PEvent.updJob (updProgress 70), PEvent.newMeeting], [failEvt m], rfl,
      by simp [nonTerminalOk], Or.inl ⟨m, rfl⟩, 3, rfl⟩
  | none =>
  cases h6 : env.opFail 6 with
  | some m =>
    exact ⟨[PEvent.updJob updProcessing, PEvent.updJob (updProgress 30),
      PEvent.updJob (updProgress 70), PEvent.newMeeting, PEvent.newBrief bid],
      [failEvt m], rfl, by simp [nonTerminalOk], Or.inl ⟨m, rfl⟩, 3, rfl⟩
  | none =>
  cases df with
  | none =>
    dsimp only
    cases h8 : env.opFail 8 with
    | some m =>
      exact ⟨[PEvent.updJob updProcessing, PEvent.updJob (updProgress 30),
        PEvent.updJob (updProgress 70), PEvent.newMeeting, PEvent.newBrief bid,
        PEvent.updJob (updProgress 85)], [failEvt m], rfl,
        by simp [nonTerminalOk], Or.inl ⟨m, rfl⟩, 4, rfl⟩
    | none =>
    cases h9 : env.opFail 9 with
    | some m =>
      exact ⟨[PEvent.updJob updProcessing, PEvent.updJob (updProgress 30),
        PEvent.updJob (updProgress 70), PEvent.newMeeting, PEvent.newBrief bid,
        PEvent.updJob (updProgress 85), PEvent.newAnalytic], [failEvt m], rfl,
        by simp [nonTerminalOk], Or.inl ⟨m, rfl⟩, 4, rfl⟩
    | none =>
      exact ⟨[PEvent.updJob updProcessing, PEvent.updJob (updProgress 30),
        PEvent.updJob (updProgress 70), PEvent.newMeeting, PEvent.newBrief bid,
        PEvent.updJob (updProgress 85), PEvent.newAnalytic],
        [PEvent.updJob (updCompleted bid)], rfl,
        by simp [nonTerminalOk], Or.inr rfl, 5, rfl⟩
  | some n =>
    dsimp only
    have hdevs := createDocs_events env.docFail n 0
    have hpw := progressWrites_of_docs hdevs
    cases hc : (createDocs env.docFail 0 n).2 with
    | some m =>
      refine ⟨[PEvent.updJob updProcessing, PEvent.updJob (updProgress 30),
        PEvent.updJob (updProgress 70), PEvent.newMeeting, PEvent.newBrief bid,
        PEvent.updJob (updProgress 85)] ++ (createDocs env.docFail 0 n).1,
        [failEvt m], by simp, ?_, Or.inl ⟨m, rfl⟩, 4, ?_⟩
      · intro e he
        rcases List.mem_append.mp he with h | h
        · exact nonTerminalOk_base bid e h
        · rw [hdevs e h]
          trivial
      · rw [progressWrites_append, progressWrites_append, hpw]
        rfl
    | none =>
    cases h8 : env.opFail 8 with
    | some m =>
      refine ⟨[PEvent.updJob updProcessing, PEvent.updJob (updProgress 30),
        PEvent.updJob (updProgress 70), PEvent.newMeeting, PEvent.newBrief bid,
        PEvent.updJob (updProgress 85)] ++ (createDocs env.docFail 0 n).1,
        [failEvt m], by simp, ?_, Or.inl ⟨m, rfl⟩, 4, ?_⟩
      · intro e he
        rcases List.mem_append.mp he with h | h
        · exact nonTerminalOk_base bid e h
        · rw [hdevs e h]
          trivial
      · rw [progressWrites_append, progressWrites_append, hpw]
        rfl
    | none =>
    cases h9 : env.opFail 9 with
    | some m =>
      refine ⟨([PEvent.updJob updProcessing, PEvent.updJob (updProgress 30),
        PEvent.updJob (updProgress 70), PEvent.newMeeting, PEvent.newBrief bid,
        PEvent.updJob (updProgress 85)] ++ (createDocs env.docFail 0 n).1)
          ++ [PEvent.newAnalytic],
        [failEvt m], by simp, ?_, Or.inl ⟨m, rfl⟩, 4, ?_⟩
      · intro e he
        rcases List.mem_append.mp he with h | h
        · rcases List.mem_append.mp h with h2 | h2
          · exact nonTerminalOk_base bid e h2
          · rw [hdevs e h2]
            trivial
        · rw [List.mem_singleton.mp h]
          trivial
      · rw [progressWrites_append, progressWrites_append, progressWrites_append, hpw]
        rfl
    | none =>
      refine ⟨([PEvent.updJob updProcessing, PEvent.updJob (updProgress 30),
        PEvent.updJob (updProgress 70), PEvent.newMeeting, PEvent.newBrief bid,
        PEvent.updJob (updProgress 85)] ++ (createDocs env.docFail 0 n).1)
          ++ [PEvent.newAnalytic],
        [PEvent.updJob (updCompleted bid)], by simp, ?_, Or.inr rfl, 5, ?_⟩
      · intro e he
        rcases List.mem_append.mp he with h | h
        · rcases List.mem_append.mp h with h2 | h2
          · exact nonTerminalOk_base bid e h2
          · rw [hdevs e h2]
            trivial
        · rw [List.mem_singleton.mp h]
          trivial
      · rw [progressWrites_append, progressWrites_append, progressWrites_append, hpw]
        rfl

theorem foldl_job_some :
    ∀ (tr : List PEvent) (s : PState) (j : Job), s.job = some j →
      ∃ j2, ((tr.foldl applyEvent s).job) = some j2 := by
  intro tr
  induction tr with
  | nil => intro s j h; exact ⟨j, h⟩
  | cons e t ih =>
    intro s j h
    rw [List.foldl_cons]
    cases e with
    | updJob u => exact ih _ (applyUpdate j u) (by simp [applyEvent, h])
    | newMeeting => exact ih _ j (by simp [applyEvent, h])
    | newBrief id => exact ih _ j (by simp [applyEvent, h])
    | newDocument => exact ih _ j (by simp [applyEvent, h])
    | newAnalytic => exact ih _ j (by simp [applyEvent, h])

/-- The job-record invariant of the data model: a completed job has a
result and no error, a failed job has an error and no result, and a
pending or processing job has neither. -/
def Inv (j : Job) : Prop :=
  (j.status = "completed" → j.resultBriefId.isSome ∧ j.error = none) ∧
  (j.status = "failed" → j.error.isSome ∧ j.resultBriefId = none) ∧
  (j.status = "pending" ∨ j.status = "processing" →
    j.resultBriefId = none ∧ j.error = none)

def InvState (s : PState) : Prop := ∀ j, s.job = some j → Inv j

/-- `AllInv s tr` says the invariant holds in `s` and in every state the
trace `tr` steps through from `s` (every state a poller could observe). -/
def AllInv : PState → List PEvent → Prop
  | s, [] => InvState s
  | s, e :: tr => InvState s ∧ AllInv (applyEvent s e) tr

/-- The strengthened mid-run invariant: not yet terminal, no result, no
error. -/
def PJ (j : Job) : Prop :=
  (j.status = "pending" ∨ j.status = "processing") ∧
    j.resultBriefId = none ∧ j.error = none

def PS (s : PState) : Prop := ∀ j, s.job = some j → PJ j

theorem PJ_Inv {j : Job} (h : PJ j) : Inv j := by
  obtain ⟨hst, hb, he⟩ := h
  refine ⟨?_, ?_, fun _ => ⟨hb, he⟩⟩
  · intro hc
    rcases hst with h2 | h2 <;> exact absurd (hc.symm.trans h2) (by decide)
  · intro hc
    rcases hst with h2 | h2 <;> exact absurd (hc.symm.trans h2) (by decide)

theorem PS_invState {s : PState} (h : PS s) : InvState s :=
  fun j hj => PJ_Inv (h j hj)

theorem PS_preserved {s : PState} {e : PEvent} (hps : PS s) (he : nonTerminalOk e) :
    PS (applyEvent s e) := by
  cases e with
  | updJob u =>
    intro j hj
    simp only [applyEvent, Option.map_eq_some'] at hj
    obtain ⟨j0, hj0, rfl⟩ := hj.imp (fun j0 h => h)
    obtain ⟨hst, hb, herr⟩ := hps j0 hj0
    rcases he with h | h | h | h <;> subst h <;>
      refine ⟨?_, by simp [applyUpdate, updProcessing, updProgress, hb],
        by simp [applyUpdate, updProcessing, updProgress, herr]⟩
    · right
      rfl
    · simpa [applyUpdate, updProgress] using hst
    · simpa [applyUpdate, updProgress] using hst
    · simpa [applyUpdate, updProgress] using hst
  | newMeeting => intro j hj; exact hps j hj
  | newBrief id => intro j hj; exact hps j hj
  | newDocument => intro j hj; exact hps j hj
  | newAnalytic => intro j hj; exact hps j hj

theorem AllInv_pre :
    ∀ (pre : List PEvent) (s : PState), PS s → (∀ e ∈ pre, nonTerminalOk e) →
      AllInv s pre ∧ PS (pre.foldl applyEvent s) := by
  intro pre
  induction pre with
  | nil => intro s hps _; exact ⟨PS_invState hps, hps⟩
  | cons e t ih =>
    intro s hps hall
    have hps2 : PS (applyEvent s e) :=
      PS_preserved hps (hall e (List.mem_cons_self e t))
    have h2 := ih (applyEvent s e) hps2 (fun d hd => hall d (List.mem_cons_of_mem e hd))
    exact ⟨⟨PS_invState hps, h2.1⟩, h2.2⟩

theorem AllInv_append_of :
    ∀ (l1 : List PEvent) (s : PState) (l2 : List PEvent),
      AllInv s l1 → AllInv (l1.foldl applyEvent s) l2 → AllInv s (l1 ++ l2) := by
  intro l1
  induction l1 with
  | nil => intro s l2 _ h2; exact h2
  | cons e t ih =>
    intro s l2 h1 h2
    exact ⟨h1.1, ih (applyEvent s e) l2 h1.2 h2⟩

theorem InvState_failEvt {s : PState} {m : String} (hps : PS s) :
    InvState (applyEvent s (failEvt m)) := by
  intro j hj
  simp only [failEvt, applyEvent, Option.map_eq_some'] at hj
  obtain ⟨j0, hj0, rfl⟩ := hj.imp (fun j0 h => h)
  obtain ⟨hst, hb, herr⟩ := hps j0 hj0
  refine ⟨?_, ?_, ?_⟩
  · intro hc
    exact absurd hc (by simp [applyUpdate, updFailed])
  · intro _
    simp [applyUpdate, updFailed, hb, herr]
  · intro hc
    rcases hc with hc | hc <;> exact absurd hc (by simp [applyUpdate, updFailed])

theorem InvState_completed {s : PState} {bid : Nat} (hps : PS s) :
    InvState (applyEvent s (PEvent.updJob (updCompleted bid))) := by
  intro j hj
  simp only [applyEvent, Option.map_eq_some'] at hj
  obtain ⟨j0, hj0, rfl⟩ := hj.imp (fun j0 h => h)
  obtain ⟨hst, hb, herr⟩ := hps j0 hj0
  refine ⟨?_, ?_, ?_⟩
  · intro _
    simp [applyUpdate, updCompleted, herr]
  · intro hc
    exact absurd hc (by simp [applyUpdate, updCompleted])
  · intro hc
    rcases hc with hc | hc <;> exact absurd hc (by simp [applyUpdate, updCompleted])

/-- Claim C4: the trigger is a no-op on a missing job or one whose status
is not exactly "pending" (no state change, no writes), and re-invoking
the trigger on the state left by any invocation performs nothing — the
first run moves the job out of "pending" on every path, so calling the
trigger twice yields exactly one pipeline execution. -/
theorem C4_theorem (env env2 : ProcEnv) (s : PState) :
    ((s.job = none ∨ ∃ j, s.job = some j ∧ j.status ≠ "pending") →
      processJob env s = (s, [])) ∧
    processJob env2 (processJob env s).1 = ((processJob env s).1, []) := by
  constructor
  · intro h
    cases hsj : s.job with
    | none => simp [processJob, hsj]
    | some j =>
      rcases h with h | ⟨j2, hj2, hne⟩
      · rw [hsj] at h
        cases h
      · rw [hsj] at hj2
        cases hj2
        simp [processJob, hsj, if_neg hne]
  · cases hsj : s.job with
    | none => simp [processJob, hsj]
    | some j =>
      by_cases hp : j.status = "pending"
      · have hrun : (processJob env s).1
            = (pipelineTrace env j.docFiles s.briefs).foldl applyEvent s := by
          simp [processJob, hsj, if_pos hp]
        obtain ⟨pre, tail, htr, hpre, htail, -⟩ :=
          pipelineTrace_master env j.docFiles s.briefs
        obtain ⟨j1, hj1⟩ := foldl_job_some pre s j hsj
        have hjob : ∃ j2, ((processJob env s).1).job = some j2 ∧ j2.status ≠ "pending" := by
          rw [hrun, htr, List.foldl_append]
          rcases htail with ⟨m, rfl⟩ | rfl
          · refine ⟨applyUpdate j1 (updFailed m), ?_, by simp [applyUpdate, updFailed]⟩
            simp [failEvt, applyEvent, hj1]
          · refine ⟨applyUpdate j1 (updCompleted s.briefs), ?_,
              by simp [applyUpdate, updCompleted]⟩
            simp [applyEvent, hj1]
        obtain ⟨j2, hj2, hne⟩ := hjob
        generalize hS : (processJob env s).1 = S1 at hj2 ⊢
        simp [processJob, hj2, if_neg hne]
      · have hid : processJob env s = (s, []) := by
          simp [processJob, hsj, if_neg hp]
        rw [hid]
        simp [processJob, hsj, if_neg hp]

/-- Claim C5: the progress values written by a run form an initial
segment of 10, 30, 70, 85, 100 in that order; together with the 0 the
job is created with they are non-decreasing; and a failed-status write
only ever occurs as the last write of the run (failure is terminal). -/
theorem C5_theorem (env : ProcEnv) (s : PState) :
    (∃ n, progressWrites (processJob env s).2 = [10, 30, 70, 85, 100].take n) ∧
    List.Chain' (· ≤ ·) (0 :: progressWrites (processJob env s).2) ∧
    (∀ i u, ((processJob env s).2).get? i = some (PEvent.updJob u) →
      u.status = some "failed" → i + 1 = ((processJob env s).2).length) := by
  have hchain : ∀ n, List.Chain' (· ≤ ·) (0 :: [10, 30, 70, 85, 100].take n) := by
    intro n
    rcases n with _ | _ | _ | _ | _ | n
    · simp
    · norm_num [List.chain'_cons]
    · norm_num [List.chain'_cons]
    · norm_num [List.chain'_cons]
    · norm_num [List.chain'_cons]
    · rw [List.take_of_length_le (by simp)]
      norm_num [List.chain'_cons]
  have htriv : (processJob env s).2 = [] ∨
      (processJob env s).2 = pipelineTrace env
        ((s.job.map Job.docFiles).getD none) s.briefs := by
    cases hsj : s.job with
    | none => left; simp [processJob, hsj]
    | some j =>
      by_cases hp : j.status = "pending"
      · right; simp [processJob, hsj, if_pos hp]
      · left; simp [processJob, hsj, if_neg hp]
  rcases htriv with h | h
  · rw [h]
    exact ⟨⟨0, rfl⟩, by simp [progressWrites], by intro i u hi; rw [List.get?_nil] at hi; cases hi⟩
  · obtain ⟨pre, tail, htr, hpre, htail, n, hpw⟩ :=
      pipelineTrace_master env ((s.job.map Job.docFiles).getD none) s.briefs
    rw [h, htr]
    refine ⟨⟨n, hpw⟩, hpw ▸ hchain n, ?_⟩
    intro i u hi hfail
    have hlen : i < (pre ++ tail).length := List.get?_eq_some.mp hi |>.1
    have htl : tail.length = 1 := by
      rcases htail with ⟨m, rfl⟩ | rfl <;> rfl
    rw [List.length_append, htl] at hlen ⊢
    by_cases hip : i < pre.length
    · exfalso
      rw [List.get?_append hip] at hi
      have hmem : PEvent.updJob u ∈ pre := List.get?_mem hi
      have := hpre _ hmem
      rcases this with h2 | h2 | h2 | h2 <;> rw [h2] at hfail <;>
        simp [updProcessing, updProgress] at hfail
    · omega

/-- Claim C6: starting from a well-formed pending job, every state the
run steps through satisfies the terminal-state invariant: completed
implies a result reference and no error, failed implies an error and no
result reference, and a pending or processing job has neither. -/
theorem C6_theorem (env : ProcEnv) (s : PState) (j : Job) (hj : s.job = some j)
    (hpend : j.status = "pending") (hb : j.resultBriefId = none)
    (herr : j.error = none) :
    AllInv s (processJob env s).2 := by
  have hps : PS s := by
    intro j2 hj2
    rw [hj] at hj2
    cases hj2
    exact ⟨Or.inl hpend, hb, herr⟩
  have h2 : (processJob env s).2 = pipelineTrace env j.docFiles s.briefs := by
    simp [processJob, hj, if_pos hpend]
  rw [h2]
  obtain ⟨pre, tail, htr, hpre, htail, -⟩ := pipelineTrace_master env j.docFiles s.briefs
  rw [htr]
  obtain ⟨hallpre, hps2⟩ := AllInv_pre pre s hps hpre
  refine AllInv_append_of pre s tail hallpre ?_
  rcases htail with ⟨m, rfl⟩ | rfl
  · exact ⟨PS_invState hps2, InvState_failEvt hps2⟩
  · exact ⟨PS_invState hps2, InvState_completed hps2⟩

/-- An environment in which every storage and generation call succeeds. -/
def envAllOk : ProcEnv := ⟨fun _ => none, fun _ => none⟩

/-- An environment in which the generation call throws. -/
def envGenFails : ProcEnv := ⟨fun k => if k = 2 then some "boom" else none, fun _ => none⟩

def pendingState : PState := ⟨some (initialJob (some 2)), 0, 0, 0, 0⟩

def completedJob : Job :=
  { status := "completed", progress := 100, resultBriefId := some 0, error := none,
    docFiles := none }

def doneState : PState := ⟨some completedJob, 1, 1, 2, 1⟩

/-- Witness for C4: triggering a completed job is a no-op, and
re-triggering after a failed run is a no-op. -/
theorem C4_witness :
    processJob envAllOk doneState = (doneState, []) ∧
    processJob envAllOk (processJob envGenFails pendingState).1
      = ((processJob envGenFails pendingState).1, []) :=
  ⟨(C4_theorem envAllOk envAllOk doneState).1 (Or.inr ⟨completedJob, rfl, by decide⟩),
   (C4_theorem envGenFails envAllOk pendingState).2⟩

/-- Witness for C5: with the generation call failing, the run writes the
progress prefix and its failed-status write is its last write. -/
theorem C5_witness :
    (∃ n, progressWrites (processJob envGenFails pendingState).2
      = [10, 30, 70, 85, 100].take n) ∧
    2 + 1 = ((processJob envGenFails pendingState).2).length :=
  ⟨(C5_theorem envGenFails pendingState).1,
   (C5_theorem envGenFails pendingState).2.2 2
     (updFailed ("Failed to generate brief: " ++ "boom")) rfl rfl⟩

/-- Witness for C6 on a concrete pending job and failing environment. -/
theorem C6_witness : AllInv pendingState (processJob envGenFails pendingState).2 :=
  C6_theorem envGenFails pendingState (initialJob (some 2)) rfl rfl rfl rfl

end BriefBot
